import Mathlib

/-!
Verification of `src/src/main.rs` (Advent of Code 2024, day 1, part 1).

The program parses a text file into two `i64` lists (one pair per line,
malformed lines skipped with a diagnostic) and prints the sum of absolute
differences of the two lists after sorting each independently.

Shallow embedding conventions:
  * `i64` values are modelled as unbounded `Int`; `parseI64` performs the
    same range check as Rust's `str::parse::<i64>`, so every value the
    parser stores lies in `[-2^63, 2^63 - 1]`.
  * The panic of the `assert_eq!` in `calculate_total_distance` is
    modelled by an `Option` result: `none` is the panic.
  * The wrapping arithmetic a release build of Rust would perform on
    `i64` overflow is modelled explicitly by `wrap64`/`i64add`/`i64abs`/
    `i64sub`, used by `sumAbsDiff64`; the exact (no-overflow) evaluation
    is `sumAbsDiff`.
  * Rust's `str::trim`, `str::split_whitespace` and `BufRead::lines` are
    modelled character-by-character (`trimChars`, `splitWsAux`,
    `splitLinesAux`); the only difference of `linesOf` from `lines()` is
    that a trailing newline yields one final empty line, which the parser
    skips silently, so no recorded value or diagnostic differs.
  * Diagnostics written to stderr are modelled as a list of `Diag`
    events; stdout progress messages carry no data and are not modelled.
-/

/-- Model of Rust `str::trim` (both-ends whitespace strip) on `List Char`. -/
def trimChars (cs : List Char) : List Char :=
  ((cs.dropWhile Char.isWhitespace).reverse.dropWhile Char.isWhitespace).reverse

/-- `line.trim()` from `main.rs` line 64. -/
def trimStr (s : String) : String :=
  String.mk (trimChars s.toList)

/-- Accumulator-style model of Rust `str::split_whitespace`: splits on runs
of whitespace and never yields an empty token. -/
def splitWsAux : List Char → List Char → List String
  | [], acc => if acc.isEmpty then [] else [String.mk acc.reverse]
  | c :: cs, acc =>
    if c.isWhitespace then
      if acc.isEmpty then splitWsAux cs [] else String.mk acc.reverse :: splitWsAux cs []
    else splitWsAux cs (c :: acc)

/-- `trimmed_line.split_whitespace().collect()` from `main.rs` line 70. -/
def splitWhitespace (s : String) : List String :=
  splitWsAux s.toList []

/-- Splits the input text at newline characters, the model of iterating
`BufReader::lines()` over the file contents (`main.rs` line 54). -/
def splitLinesAux : List Char → List Char → List String
  | [], acc => [String.mk acc.reverse]
  | c :: cs, acc =>
    if c = '\n' then String.mk acc.reverse :: splitLinesAux cs []
    else splitLinesAux cs (c :: acc)

/-- The lines of the input text, in order. -/
def linesOf (s : String) : List String :=
  splitLinesAux s.toList []

/-- Base-10 value of a digit string (most significant first). -/
def digitsVal (ds : List Char) : Int :=
  (ds.foldl (fun acc c => acc * 10 + (c.toNat - 48)) 0 : Nat)

/-- The `i64` range check performed by Rust's overflow-detecting
`str::parse::<i64>`: a syntactically valid integer outside
`[-2^63, 2^63 - 1]` is a parse failure. -/
def rangeCheck (n : Int) : Option Int :=
  if -(2 ^ 63) ≤ n ∧ n ≤ 2 ^ 63 - 1 then some n else none

/-- Digit-sequence part of `str::parse::<i64>`: at least one ASCII digit
and nothing else, then the range check on the (possibly negated) value. -/
def parseDigits (neg : Bool) (ds : List Char) : Option Int :=
  if ds ≠ [] ∧ ds.all Char.isDigit then
    rangeCheck (if neg then -(digitsVal ds) else digitsVal ds)
  else none

/-- Model of Rust `str::parse::<i64>` (`main.rs` lines 73-74): an optional
`+`/`-` sign followed by at least one ASCII digit, whose value must fit in
the `i64` range `[-2^63, 2^63 - 1]`; anything else fails. -/
def parseI64 (s : String) : Option Int :=
  match s.toList with
  | '-' :: ds => parseDigits true ds
  | '+' :: ds => parseDigits false ds
  | ds => parseDigits false ds

/-- One stderr diagnostic of the parsing loop (`eprintln!` calls in
`main.rs` lines 82-99): a parse failure of the first token, a parse
failure of the second token (first token parsed), or a wrong token count. -/
inductive Diag where
  | errFirst (lineNum : Nat) (token : String)
  | errSecond (lineNum : Nat) (token : String)
  | wrongCount (lineNum : Nat) (content : String)
deriving DecidableEq, Repr

/-- The mutable state of the parsing loop in `main`: `left_list`,
`right_list` and the diagnostics emitted so far. -/
structure ParseState where
  left : List Int
  right : List Int
  diags : List Diag
deriving DecidableEq, Repr

/-- Processing of one trimmed non-blank line (`main.rs` lines 70-100):
with exactly two tokens both parsing, push onto both lists; with a parse
failure, emit the diagnostic for the first failing token (the Rust `match`
arms give the first token's error priority); otherwise warn about the
token count. Exactly one of the three skip cases appends a diagnostic, and
only the both-parse case touches the lists. -/
def recordLine (st : ParseState) (lineNum : Nat) (trimmed : String) : ParseState :=
  match splitWhitespace trimmed with
  | [p0, p1] =>
    match parseI64 p0, parseI64 p1 with
    | some l, some r => ⟨st.left ++ [l], st.right ++ [r], st.diags⟩
    | none, _ => ⟨st.left, st.right, st.diags ++ [Diag.errFirst lineNum p0]⟩
    | some _, none => ⟨st.left, st.right, st.diags ++ [Diag.errSecond lineNum p1]⟩
  | _ => ⟨st.left, st.right, st.diags ++ [Diag.wrongCount lineNum trimmed]⟩

/-- One iteration of the `for line_result in reader.lines()` loop
(`main.rs` lines 54-101): trim, skip silently when blank, otherwise
record. -/
def processLine (st : ParseState) (lineNum : Nat) (line : String) : ParseState :=
  if trimStr line = "" then st else recordLine st lineNum (trimStr line)

/-- Folds the loop body over a list of lines; `line_num` starts at 1. -/
def parseLines (lines : List String) : ParseState :=
  lines.enum.foldl (fun st p => processLine st (p.1 + 1) p.2) ⟨[], [], []⟩

/-- The whole parsing phase of `main` on the input text. -/
def parseInput (input : String) : ParseState :=
  parseLines (linesOf input)

/-- `sort_unstable` (`main.rs` lines 21-22) sorts ascending; any sorting
algorithm produces the same list, here insertion sort. -/
def sortAsc (l : List Int) : List Int :=
  l.insertionSort (· ≤ ·)

/-- The zip-map-sum of `main.rs` lines 26-30 in exact integer arithmetic:
pair the two (sorted) lists positionally and sum the absolute
differences. -/
def sumAbsDiff (l r : List Int) : Int :=
  ((l.zip r).map (fun p => |p.1 - p.2|)).sum

/-- The body of `calculate_total_distance` after the assertion. -/
def calcCore (left right : List Int) : Int :=
  sumAbsDiff (sortAsc left) (sortAsc right)

/-- `calculate_total_distance` (`main.rs` lines 10-33). The `assert_eq!`
on the lengths is modelled by the `none` result (a panic); when the
lengths agree the sorted zip-map-sum value is returned. -/
def calculate_total_distance (left right : List Int) : Option Int :=
  if left.length = right.length then some (calcCore left right) else none

/-- Reduction modulo 2^64 into `[-2^63, 2^63)`: the value an `i64`
holds after a wrapping operation. -/
def wrap64 (n : Int) : Int :=
  (n + 2 ^ 63) % 2 ^ 64 - 2 ^ 63

/-- `i64` subtraction as compiled in release mode (wrapping). -/
def i64sub (a b : Int) : Int := wrap64 (a - b)

/-- `i64::abs` as compiled in release mode (`(-2^63).abs()` wraps back to
`-2^63`). -/
def i64abs (a : Int) : Int := wrap64 |a|

/-- `i64` addition as compiled in release mode (wrapping). -/
def i64add (a b : Int) : Int := wrap64 (a + b)

/-- The zip-map-sum of `main.rs` lines 26-30 in wrapping `i64`
arithmetic: the release-mode machine evaluation of the same expression.
It agrees with `sumAbsDiff` exactly when no step overflows. -/
def sumAbsDiff64 (l r : List Int) : Int :=
  ((l.zip r).map (fun p => i64abs (i64sub p.1 p.2))).foldl i64add 0

/-- Maximum absolute value of a list's elements (`0` for the empty
list); the magnitude measure the specification's overflow bound uses. -/
def maxAbs (l : List Int) : Int :=
  l.foldr (fun x m => max |x| m) 0

/-- The observable outcome of `main` after parsing (`main.rs` lines
105-118): no valid pairs, the defensive length-mismatch abort, or the
computed total distance. -/
inductive Outcome where
  | noData
  | mismatch
  | success (total : Int)
deriving DecidableEq, Repr

/-- The post-parse branch of `main` (`main.rs` lines 105-118). -/
def mainOutcome (input : String) : Outcome :=
  if (parseInput input).left.length = 0 then Outcome.noData
  else if (parseInput input).left.length ≠ (parseInput input).right.length then Outcome.mismatch
  else Outcome.success (calcCore (parseInput input).left (parseInput input).right)

/-- Exit status of `main` given the post-parse outcome: only the
defensive mismatch branch returns an `Err` (`main.rs` line 113); both
`noData` and `success` fall through to `Ok(())` (`main.rs` line 120). -/
def exitSuccess : Outcome → Bool
  | Outcome.mismatch => false
  | _ => true

/-- Membership of the `i64` range. -/
def inI64 (n : Int) : Prop :=
  -(2 ^ 63) ≤ n ∧ n ≤ 2 ^ 63 - 1

instance (n : Int) : Decidable (inI64 n) := by
  unfold inI64; infer_instance

theorem sumAbsDiff_nil_left (r : List Int) : sumAbsDiff [] r = 0 := rfl

theorem sumAbsDiff_nil_right (l : List Int) : sumAbsDiff l [] = 0 := by
  simp [sumAbsDiff]

theorem sumAbsDiff_cons (a b : Int) (l r : List Int) :
    sumAbsDiff (a :: l) (b :: r) = |a - b| + sumAbsDiff l r := by
  simp [sumAbsDiff]

theorem sumAbsDiff_nonneg : ∀ l r : List Int, 0 ≤ sumAbsDiff l r
  | [], r => le_of_eq (sumAbsDiff_nil_left r).symm
  | _ :: _, [] => le_of_eq (sumAbsDiff_nil_right _).symm
  | a :: l, b :: r => by
    rw [sumAbsDiff_cons]
    exact add_nonneg (abs_nonneg _) (sumAbsDiff_nonneg l r)

theorem sumAbsDiff_comm : ∀ l r : List Int, sumAbsDiff l r = sumAbsDiff r l
  | [], r => by rw [sumAbsDiff_nil_left, sumAbsDiff_nil_right]
  | _ :: _, [] => by rw [sumAbsDiff_nil_left, sumAbsDiff_nil_right]
  | a :: l, b :: r => by
    rw [sumAbsDiff_cons, sumAbsDiff_cons, abs_sub_comm, sumAbsDiff_comm l r]

theorem sumAbsDiff_self : ∀ l : List Int, sumAbsDiff l l = 0
  | [] => rfl
  | a :: l => by rw [sumAbsDiff_cons, sumAbsDiff_self l]; simp

theorem sumAbsDiff_le : ∀ (l r : List Int) (A B : Int),
    (∀ a ∈ l, |a| ≤ A) → (∀ b ∈ r, |b| ≤ B) → l.length = r.length →
    sumAbsDiff l r ≤ (l.length : Int) * (A + B)
  | [], _, _, _, _, _, _ => by
    rw [sumAbsDiff_nil_left]; simp
  | _ :: _, [], _, _, _, _, hlen => by simp at hlen
  | a :: l, b :: r, A, B, hA, hB, hlen => by
    have ha : |a| ≤ A := hA a (List.mem_cons_self a l)
    have hb : |b| ≤ B := hB b (List.mem_cons_self b r)
    have hhead : |a - b| ≤ A + B :=
      le_trans (abs_sub a b) (add_le_add ha hb)
    have htail : sumAbsDiff l r ≤ (l.length : Int) * (A + B) :=
      sumAbsDiff_le l r A B (fun x hx => hA x (List.mem_cons_of_mem a hx))
        (fun x hx => hB x (List.mem_cons_of_mem b hx))
        (by simpa using hlen)
    rw [sumAbsDiff_cons]
    have : ((a :: l).length : Int) * (A + B) = (A + B) + (l.length : Int) * (A + B) := by
      push_cast [List.length_cons]
      ring
    rw [this]
    exact add_le_add hhead htail

theorem maxAbs_cons (a : Int) (l : List Int) : maxAbs (a :: l) = max |a| (maxAbs l) := rfl

theorem maxAbs_nonneg : ∀ l : List Int, 0 ≤ maxAbs l
  | [] => le_refl 0
  | a :: l => by
    rw [maxAbs_cons]
    exact le_trans (maxAbs_nonneg l) (le_max_right _ _)

theorem abs_le_maxAbs : ∀ (l : List Int) (x : Int), x ∈ l → |x| ≤ maxAbs l
  | a :: l, x, h => by
    rcases List.mem_cons.mp h with h | h
    · rw [h, maxAbs_cons]; exact le_max_left _ _
    · rw [maxAbs_cons]; exact le_trans (abs_le_maxAbs l x h) (le_max_right _ _)

theorem sortAsc_perm (l : List Int) : (sortAsc l).Perm l :=
  List.perm_insertionSort _ l

theorem sortAsc_length (l : List Int) : (sortAsc l).length = l.length :=
  (sortAsc_perm l).length_eq

theorem mem_sortAsc {l : List Int} {x : Int} : x ∈ sortAsc l ↔ x ∈ l :=
  (sortAsc_perm l).mem_iff

theorem sortAsc_eq_of_perm {l l' : List Int} (h : l.Perm l') : sortAsc l = sortAsc l' :=
  List.eq_of_perm_of_sorted ((sortAsc_perm l).trans (h.trans (sortAsc_perm l').symm))
    (List.sorted_insertionSort _ _) (List.sorted_insertionSort _ _)

theorem wrap64_eq_self {n : Int} (h1 : -(2 ^ 63) ≤ n) (h2 : n < 2 ^ 63) : wrap64 n = n := by
  unfold wrap64
  have hsplit : (2 : Int) ^ 64 = 2 ^ 63 + 2 ^ 63 := by norm_num
  have h0 : 0 ≤ n + 2 ^ 63 := by linarith
  have hlt : n + 2 ^ 63 < 2 ^ 64 := by linarith
  rw [Int.emod_eq_of_lt h0 hlt]
  ring

theorem i64abs_i64sub_exact {a b A B : Int} (ha : |a| ≤ A) (hb : |b| ≤ B)
    (hAB : A + B < 2 ^ 63) : i64abs (i64sub a b) = |a - b| := by
  have habs : |a - b| ≤ A + B := le_trans (abs_sub a b) (add_le_add ha hb)
  have hnn : 0 ≤ |a - b| := abs_nonneg _
  have hneg : -|a - b| ≤ a - b := neg_abs_le _
  have hle : a - b ≤ |a - b| := le_abs_self _
  have hsub : i64sub a b = a - b := by
    unfold i64sub
    exact wrap64_eq_self (by linarith) (by linarith)
  rw [hsub]
  unfold i64abs
  exact wrap64_eq_self (by linarith) (by linarith)

theorem foldl_i64add_exact : ∀ (xs : List Int) (acc : Int),
    0 ≤ acc → (∀ x ∈ xs, 0 ≤ x) → acc + xs.sum < 2 ^ 63 →
    xs.foldl i64add acc = acc + xs.sum
  | [], acc, _, _, _ => by simp
  | x :: xs, acc, hacc, hxs, hsum => by
    have hx : 0 ≤ x := hxs x (List.mem_cons_self x xs)
    have hxs' : ∀ y ∈ xs, 0 ≤ y := fun y hy => hxs y (List.mem_cons_of_mem x hy)
    have hsum_xs : 0 ≤ xs.sum := List.sum_nonneg hxs'
    rw [List.sum_cons] at hsum
    have hp : (0 : Int) < 2 ^ 63 := by positivity
    have hstep : i64add acc x = acc + x := by
      unfold i64add
      exact wrap64_eq_self (by linarith) (by linarith)
    rw [List.foldl_cons, hstep, List.sum_cons,
      foldl_i64add_exact xs (acc + x) (by linarith) hxs' (by linarith)]
    ring

theorem sumAbsDiff64_eq_exact (l r : List Int) (A B : Int)
    (hA : ∀ a ∈ l, |a| ≤ A) (hB : ∀ b ∈ r, |b| ≤ B)
    (hA0 : 0 ≤ A) (hB0 : 0 ≤ B) (hlen : l.length = r.length)
    (hbound : (l.length : Int) * (A + B) < 2 ^ 63) :
    sumAbsDiff64 l r = sumAbsDiff l r := by
  rcases l with _ | ⟨a, l'⟩
  · rfl
  · set l := a :: l' with hl
    have h1 : (1 : Int) ≤ (l.length : Int) := by
      rw [hl]
      simp [List.length_cons]
    have hAB : A + B < 2 ^ 63 := by
      have h2 : A + B ≤ (l.length : Int) * (A + B) :=
        le_mul_of_one_le_left (by linarith) h1
      linarith
    have hmap : (l.zip r).map (fun p => i64abs (i64sub p.1 p.2)) =
        (l.zip r).map (fun p => |p.1 - p.2|) := by
      refine List.map_congr_left (fun p hp => ?_)
      have hmem := List.of_mem_zip hp
      exact i64abs_i64sub_exact (hA p.1 hmem.1) (hB p.2 hmem.2) hAB
    have hnn : ∀ x ∈ (l.zip r).map (fun p => |p.1 - p.2|), 0 ≤ x := by
      intro x hx
      rcases List.mem_map.mp hx with ⟨p, _, hpx⟩
      rw [← hpx]
      exact abs_nonneg _
    have hsum_lt : ((l.zip r).map (fun p => |p.1 - p.2|)).sum < 2 ^ 63 := by
      have hle : sumAbsDiff l r ≤ (l.length : Int) * (A + B) :=
        sumAbsDiff_le l r A B hA hB hlen
      calc ((l.zip r).map (fun p => |p.1 - p.2|)).sum
          = sumAbsDiff l r := rfl
        _ ≤ (l.length : Int) * (A + B) := hle
        _ < 2 ^ 63 := hbound
    calc sumAbsDiff64 l r
        = ((l.zip r).map (fun p => |p.1 - p.2|)).foldl i64add 0 := by
          rw [sumAbsDiff64, hmap]
      _ = 0 + ((l.zip r).map (fun p => |p.1 - p.2|)).sum :=
          foldl_i64add_exact _ 0 (le_refl 0) hnn (by simpa using hsum_lt)
      _ = sumAbsDiff l r := by rw [zero_add]; rfl

theorem recordLine_spec (st : ParseState) (n : Nat) (t : String) :
    (∃ p0 p1 l r, splitWhitespace t = [p0, p1] ∧ parseI64 p0 = some l ∧ parseI64 p1 = some r ∧
       recordLine st n t = ⟨st.left ++ [l], st.right ++ [r], st.diags⟩) ∨
    (∃ p0 p1, splitWhitespace t = [p0, p1] ∧ parseI64 p0 = none ∧
       recordLine st n t = ⟨st.left, st.right, st.diags ++ [Diag.errFirst n p0]⟩) ∨
    (∃ p0 p1 l, splitWhitespace t = [p0, p1] ∧ parseI64 p0 = some l ∧ parseI64 p1 = none ∧
       recordLine st n t = ⟨st.left, st.right, st.diags ++ [Diag.errSecond n p1]⟩) ∨
    ((¬ ∃ p0 p1, splitWhitespace t = [p0, p1]) ∧
       recordLine st n t = ⟨st.left, st.right, st.diags ++ [Diag.wrongCount n t]⟩) := by
  rcases hsp : splitWhitespace t with _ | ⟨p0, _ | ⟨p1, _ | ⟨p2, rest⟩⟩⟩
  · exact Or.inr (Or.inr (Or.inr ⟨by simp, by simp [recordLine, hsp]⟩))
  · exact Or.inr (Or.inr (Or.inr ⟨by simp, by simp [recordLine, hsp]⟩))
  · rcases hp0 : parseI64 p0 with _ | l
    · exact Or.inr (Or.inl ⟨p0, p1, rfl, hp0, by simp [recordLine, hsp, hp0]⟩)
    · rcases hp1 : parseI64 p1 with _ | r
      · exact Or.inr (Or.inr (Or.inl ⟨p0, p1, l, rfl, hp0, hp1,
          by simp [recordLine, hsp, hp0, hp1]⟩))
      · exact Or.inl ⟨p0, p1, l, r, rfl, hp0, hp1, by simp [recordLine, hsp, hp0, hp1]⟩
  · exact Or.inr (Or.inr (Or.inr ⟨by simp, by simp [recordLine, hsp]⟩))

theorem rangeCheck_range (m n : Int) (h : rangeCheck m = some n) : inI64 n := by
  unfold rangeCheck at h
  split at h
  · next hr => cases h; exact hr
  · cases h

theorem parseI64_range (s : String) (n : Int) (h : parseI64 s = some n) : inI64 n := by
  unfold parseI64 at h
  split at h <;>
  · unfold parseDigits at h
    split at h
    · exact rangeCheck_range _ _ h
    · cases h

theorem processLine_len (st : ParseState) (n : Nat) (line : String)
    (h : st.left.length = st.right.length) :
    (processLine st n line).left.length = (processLine st n line).right.length := by
  unfold processLine
  split
  · exact h
  · rcases recordLine_spec st n (trimStr line) with
      ⟨p0, p1, l, r, _, _, _, heq⟩ | ⟨p0, p1, _, _, heq⟩ |
      ⟨p0, p1, l, _, _, _, heq⟩ | ⟨_, heq⟩ <;>
    rw [heq] <;> simp [h]

theorem processLine_range (st : ParseState) (n : Nat) (line : String)
    (hl : ∀ x ∈ st.left, inI64 x) (hr : ∀ x ∈ st.right, inI64 x) :
    (∀ x ∈ (processLine st n line).left, inI64 x) ∧
    (∀ x ∈ (processLine st n line).right, inI64 x) := by
  unfold processLine
  split
  · exact ⟨hl, hr⟩
  · rcases recordLine_spec st n (trimStr line) with
      ⟨p0, p1, l, r, _, hp0, hp1, heq⟩ | ⟨p0, p1, _, _, heq⟩ |
      ⟨p0, p1, l, _, _, _, heq⟩ | ⟨_, heq⟩
    · rw [heq]
      constructor
      · intro x hx
        rcases List.mem_append.mp hx with hx | hx
        · exact hl x hx
        · rw [List.mem_singleton.mp hx]
          exact parseI64_range _ _ hp0
      · intro x hx
        rcases List.mem_append.mp hx with hx | hx
        · exact hr x hx
        · rw [List.mem_singleton.mp hx]
          exact parseI64_range _ _ hp1
    · rw [heq]; exact ⟨hl, hr⟩
    · rw [heq]; exact ⟨hl, hr⟩
    · rw [heq]; exact ⟨hl, hr⟩

theorem foldl_processLine_inv (P : ParseState → Prop)
    (hP : ∀ st n line, P st → P (processLine st n line)) :
    ∀ (ps : List (Nat × String)) (st : ParseState), P st →
      P (ps.foldl (fun s p => processLine s (p.1 + 1) p.2) st)
  | [], _, h => h
  | p :: ps, st, h => foldl_processLine_inv P hP ps _ (hP st (p.1 + 1) p.2 h)

theorem parseLines_lengths (lines : List String) :
    (parseLines lines).left.length = (parseLines lines).right.length := by
  unfold parseLines
  exact foldl_processLine_inv (fun st => st.left.length = st.right.length)
    (fun st n line h => processLine_len st n line h) _ _ rfl

theorem parseLines_range (lines : List String) :
    (∀ x ∈ (parseLines lines).left, inI64 x) ∧
    (∀ x ∈ (parseLines lines).right, inI64 x) := by
  unfold parseLines
  exact foldl_processLine_inv
    (fun st => (∀ x ∈ st.left, inI64 x) ∧ (∀ x ∈ st.right, inI64 x))
    (fun st n line h => processLine_range st n line h.1 h.2) _ _
    ⟨fun x hx => absurd hx (List.not_mem_nil x), fun x hx => absurd hx (List.not_mem_nil x)⟩

/-- C1: on the six-line input "3 4\n4 3\n2 5\n1 3\n3 9\n3 3\n" the parser
produces left = [3, 4, 2, 1, 3, 3] and right = [4, 3, 5, 3, 9, 3], and
calculate_total_distance on these lists returns 11. -/
theorem c1_scenario_a :
    (parseInput "3 4\n4 3\n2 5\n1 3\n3 9\n3 3\n").left = [3, 4, 2, 1, 3, 3] ∧
    (parseInput "3 4\n4 3\n2 5\n1 3\n3 9\n3 3\n").right = [4, 3, 5, 3, 9, 3] ∧
    calculate_total_distance [3, 4, 2, 1, 3, 3] [4, 3, 5, 3, 9, 3] = some 11 := by
  decide

/-- C2: for every input text the parser leaves the left list and the right
list with equal length (each line appends to both or to neither), so the
defensive post-parse length-mismatch branch of main is never taken. -/
theorem c2_lengths_always_equal (input : String) :
    (parseInput input).left.length = (parseInput input).right.length ∧
    mainOutcome input ≠ Outcome.mismatch := by
  have h : (parseInput input).left.length = (parseInput input).right.length := by
    unfold parseInput
    exact parseLines_lengths _
  refine ⟨h, ?_⟩
  unfold mainOutcome
  split
  · simp
  · rw [if_neg (fun hne => hne h)]
    simp

/-- C3 as stated is false: at L = [1], R = [-1] the computed distance is
2, which exceeds the claimed bound length * (maximum absolute element
value) = 1 * 1, under any reading of which list the maximum ranges over. -/
theorem c3_counterexample :
    calculate_total_distance [(1 : Int)] [(-1 : Int)] = some 2 ∧
    ¬ ((2 : Int) ≤ (([(1 : Int)]).length : Int) * maxAbs ([(1 : Int)] ++ [(-1 : Int)])) := by
  decide

/-- C3 amended: for equal-length lists the result is a non-negative
integer bounded by length * (maxAbs of the left list + maxAbs of the
right list) — twice the claimed product in the worst case — and whenever
that bound is below 2^63 the wrapping i64 evaluation of the zip-map-sum
agrees with the exact value, i.e. no subtraction, absolute value or
summation step overflows. -/
theorem c3_amended (L R : List Int) (hlen : L.length = R.length) :
    ∃ d, calculate_total_distance L R = some d ∧ 0 ≤ d ∧
      d ≤ (L.length : Int) * (maxAbs L + maxAbs R) ∧
      ((L.length : Int) * (maxAbs L + maxAbs R) < 2 ^ 63 →
        sumAbsDiff64 (sortAsc L) (sortAsc R) = d) := by
  have hA : ∀ a ∈ sortAsc L, |a| ≤ maxAbs L :=
    fun a ha => abs_le_maxAbs L a (mem_sortAsc.mp ha)
  have hB : ∀ b ∈ sortAsc R, |b| ≤ maxAbs R :=
    fun b hb => abs_le_maxAbs R b (mem_sortAsc.mp hb)
  have hlen2 : (sortAsc L).length = (sortAsc R).length := by
    rw [sortAsc_length, sortAsc_length, hlen]
  refine ⟨calcCore L R, ?_, sumAbsDiff_nonneg _ _, ?_, ?_⟩
  · unfold calculate_total_distance
    rw [if_pos hlen]
  · have hle := sumAbsDiff_le (sortAsc L) (sortAsc R) (maxAbs L) (maxAbs R) hA hB hlen2
    rw [sortAsc_length] at hle
    exact hle
  · intro hb
    have hb2 : ((sortAsc L).length : Int) * (maxAbs L + maxAbs R) < 2 ^ 63 := by
      rw [sortAsc_length]
      exact hb
    exact sumAbsDiff64_eq_exact (sortAsc L) (sortAsc R) (maxAbs L) (maxAbs R)
      hA hB (maxAbs_nonneg L) (maxAbs_nonneg R) hlen2 hb2

/-- Witness for the amended C3 at L = [3, 1], R = [2, 5]. -/
theorem c3_amended_witness :
    ∃ d, calculate_total_distance [(3 : Int), 1] [(2 : Int), 5] = some d ∧ 0 ≤ d ∧
      d ≤ (([(3 : Int), 1]).length : Int) * (maxAbs [(3 : Int), 1] + maxAbs [(2 : Int), 5]) ∧
      ((([(3 : Int), 1]).length : Int) * (maxAbs [(3 : Int), 1] + maxAbs [(2 : Int), 5]) < 2 ^ 63 →
        sumAbsDiff64 (sortAsc [(3 : Int), 1]) (sortAsc [(2 : Int), 5]) = d) :=
  c3_amended [3, 1] [2, 5] rfl

/-- C4: calculate_total_distance is symmetric in its two arguments, for
all lists (equal length or not — both orders panic together). -/
theorem c4_symmetric (L R : List Int) :
    calculate_total_distance L R = calculate_total_distance R L := by
  unfold calculate_total_distance
  rcases eq_or_ne L.length R.length with h | h
  · rw [if_pos h, if_pos h.symm]
    unfold calcCore
    rw [sumAbsDiff_comm]
  · rw [if_neg h, if_neg (fun hh => h hh.symm)]

/-- C5: permuting either input of calculate_total_distance does not change
the result, since each list is sorted before pairing. -/
theorem c5_permutation_invariant (L R Lp Rp : List Int)
    (hL : Lp.Perm L) (hR : Rp.Perm R) :
    calculate_total_distance Lp Rp = calculate_total_distance L R := by
  unfold calculate_total_distance
  rw [hL.length_eq, hR.length_eq]
  rcases eq_or_ne L.length R.length with h | h
  · rw [if_pos h, if_pos h]
    unfold calcCore
    rw [sortAsc_eq_of_perm hL, sortAsc_eq_of_perm hR]
  · rw [if_neg h, if_neg h]

/-- Witness for C5: [2, 1] is a permutation of [1, 2] and [9, 4] of
[4, 9], and the distances agree. -/
theorem c5_witness :
    calculate_total_distance [(2 : Int), 1] [(9 : Int), 4] =
      calculate_total_distance [(1 : Int), 2] [(4 : Int), 9] :=
  c5_permutation_invariant [1, 2] [4, 9] [2, 1] [9, 4] (by decide) (by decide)

/-- C6: the distance of any list against itself is 0; in particular the
distance of the empty list against itself is 0. -/
theorem c6_self_distance_zero :
    (∀ L : List Int, calculate_total_distance L L = some 0) ∧
    calculate_total_distance ([] : List Int) [] = some 0 := by
  have h : ∀ L : List Int, calculate_total_distance L L = some 0 := by
    intro L
    unfold calculate_total_distance
    rw [if_pos rfl]
    unfold calcCore
    rw [sumAbsDiff_self]
  exact ⟨h, h []⟩

/-- C7: equal length is exactly the precondition of
calculate_total_distance: under it the internal length assertion cannot
fire and a value is returned; when it fails the call is the modelled
panic (none), not a recoverable result. -/
theorem c7_length_precondition (L R : List Int) :
    (L.length = R.length → calculate_total_distance L R = some (calcCore L R)) ∧
    (L.length ≠ R.length → calculate_total_distance L R = none) := by
  constructor
  · intro h
    unfold calculate_total_distance
    rw [if_pos h]
  · intro h
    unfold calculate_total_distance
    rw [if_neg h]

/-- Witness for C7 at the equal-length pair [1], [5] and the
mismatched pair [1], []. -/
theorem c7_witness :
    calculate_total_distance [(1 : Int)] [(5 : Int)] =
      some (calcCore [(1 : Int)] [(5 : Int)]) ∧
    calculate_total_distance [(1 : Int)] ([] : List Int) = none :=
  ⟨(c7_length_precondition [1] [5]).1 rfl,
   (c7_length_precondition [1] []).2 (by decide)⟩

/-- C8: a trimmed non-blank line with exactly two whitespace-separated
tokens of which at least one fails to parse appends exactly one error
diagnostic naming the failing token and the line number, records no value
in either list (even when the other token parsed), and leaves the loop
state otherwise unchanged so parsing continues with the next line. -/
theorem c8_parse_failure_skips (st : ParseState) (n : Nat) (line t0 t1 : String)
    (hne : trimStr line ≠ "")
    (htok : splitWhitespace (trimStr line) = [t0, t1])
    (hfail : parseI64 t0 = none ∨ parseI64 t1 = none) :
    (processLine st n line).left = st.left ∧
    (processLine st n line).right = st.right ∧
    ((parseI64 t0 = none ∧
        (processLine st n line).diags = st.diags ++ [Diag.errFirst n t0]) ∨
     (parseI64 t0 ≠ none ∧ parseI64 t1 = none ∧
        (processLine st n line).diags = st.diags ++ [Diag.errSecond n t1])) := by
  have hpl : processLine st n line = recordLine st n (trimStr line) := by
    unfold processLine
    rw [if_neg hne]
  rcases recordLine_spec st n (trimStr line) with
    ⟨p0, p1, l, r, hsp, hp0, hp1, heq⟩ | ⟨p0, p1, hsp, hp0, heq⟩ |
    ⟨p0, p1, l, hsp, hp0, hp1, heq⟩ | ⟨hnex, heq⟩
  · have hinj : p0 = t0 ∧ p1 = t1 := by simpa using hsp.symm.trans htok
    rcases hfail with hf | hf
    · rw [hinj.1, hf] at hp0
      simp at hp0
    · rw [hinj.2, hf] at hp1
      simp at hp1
  · have hinj : p0 = t0 ∧ p1 = t1 := by simpa using hsp.symm.trans htok
    rw [hpl, heq]
    refine ⟨rfl, rfl, Or.inl ⟨?_, ?_⟩⟩
    · rw [← hinj.1]
      exact hp0
    · rw [← hinj.1]
  · have hinj : p0 = t0 ∧ p1 = t1 := by simpa using hsp.symm.trans htok
    rw [hpl, heq]
    refine ⟨rfl, rfl, Or.inr ⟨?_, ?_, ?_⟩⟩
    · rw [← hinj.1, hp0]
      simp
    · rw [← hinj.2]
      exact hp1
    · rw [← hinj.2]
  · exact absurd ⟨t0, t1, htok⟩ hnex

/-- Witness for C8: Scenario B's line "5 abc" at line number 1 — no
values recorded, one diagnostic citing token "abc". -/
theorem c8_witness :
    (processLine ⟨[], [], []⟩ 1 "5 abc").left = [] ∧
    (processLine ⟨[], [], []⟩ 1 "5 abc").right = [] ∧
    ((parseI64 "5" = none ∧
        (processLine ⟨[], [], []⟩ 1 "5 abc").diags = [] ++ [Diag.errFirst 1 "5"]) ∨
     (parseI64 "5" ≠ none ∧ parseI64 "abc" = none ∧
        (processLine ⟨[], [], []⟩ 1 "5 abc").diags = [] ++ [Diag.errSecond 1 "abc"])) :=
  c8_parse_failure_skips ⟨[], [], []⟩ 1 "5 abc" "5" "abc"
    (by decide) (by decide) (Or.inr (by decide))

/-- C9: when parsing found zero valid pairs, main reports the no-data
outcome — a constructor distinct from both the fatal mismatch and the
normal success, carrying no computed distance — and exits successfully. -/
theorem c9_no_data (input : String)
    (h : (parseInput input).left.length = 0) :
    mainOutcome input = Outcome.noData ∧
    exitSuccess (mainOutcome input) = true := by
  have hm : mainOutcome input = Outcome.noData := by
    unfold mainOutcome
    rw [if_pos h]
  refine ⟨hm, ?_⟩
  rw [hm]
  rfl

/-- Witness for C9 at the empty input, which parses to zero pairs. -/
theorem c9_witness :
    mainOutcome "" = Outcome.noData ∧ exitSuccess (mainOutcome "") = true :=
  c9_no_data "" (by decide)

/-- C10: parseI64 succeeds only on values inside the i64 range — a
syntactically valid integer just out of range, such as 2^63 or
-(2^63)-1, fails to parse (so its line is skipped by the C8 behaviour) —
and consequently every integer stored in the left or right list lies in
the i64 range. -/
theorem c10_i64_range :
    (∀ s n, parseI64 s = some n → inI64 n) ∧
    parseI64 "9223372036854775808" = none ∧
    parseI64 "-9223372036854775809" = none ∧
    (∀ input, (∀ x ∈ (parseInput input).left, inI64 x) ∧
              (∀ x ∈ (parseInput input).right, inI64 x)) := by
  refine ⟨fun s n h => parseI64_range s n h, by decide, by decide, fun input => ?_⟩
  unfold parseInput
  exact parseLines_range _

/-- Witness for C10: the parsed value 5 and the stored value 3 of input
"3 4" are in the i64 range. -/
theorem c10_witness : inI64 5 ∧ inI64 3 :=
  ⟨c10_i64_range.1 "5" 5 (by decide),
   (c10_i64_range.2.2.2 "3 4").1 3 (by decide)⟩
